import Mathlib

/-!
Verification of the Memecoin Tweet Tracker analysis and aggregation engine.

This development shallowly embeds the decision logic of
`src/tweet_analyzer.py` and `src/data_processor.py`:

* text is modelled as a list of Unicode codepoints (`Text := List Nat`);
* Python floats are modelled as exact rationals (`ℚ`);
* Python dictionaries used as ordered accumulators are modelled as
  insertion-ordered association lists;
* `list(set (...))` (whose iteration order Python leaves unspecified) is
  modelled by first-occurrence deduplication, and set-valued facts are
  stated on the underlying `Finset`;
* Python's stable `sort`/`sorted` is modelled by `List.insertionSort`,
  which is likewise stable.
-/

/-- Tweet text, keywords and coin identifiers, as lists of Unicode
codepoints (the code-level view of a Python `str`). -/
abbrev Text := List Nat

/-- Codepoints of a Lean string literal, used to write concrete inputs. -/
def str (s : String) : Text := s.data.map Char.toNat

/-- ASCII lower-casing of one codepoint, the behaviour of Python's
`str.lower` on the ASCII range (all text in the repository's lexicon and
patterns is ASCII or emoji, which `lower` leaves unchanged). -/
def lowerChar (n : Nat) : Nat := if 65 ≤ n ∧ n ≤ 90 then n + 32 else n

/-- Python's `text.lower()`. -/
def lowerText (t : Text) : Text := t.map lowerChar

/-- Python's substring test `needle in hay` (contiguous occurrence). -/
def containsSub (needle : Text) : Text → Bool
  | [] => needle.isEmpty
  | c :: rest => needle.isPrefixOf (c :: rest) || containsSub needle rest

/-- A codepoint matched by the character class `[a-zA-Z0-9]`. -/
def isAlnum (n : Nat) : Bool :=
  decide (48 ≤ n ∧ n ≤ 57) || decide (65 ≤ n ∧ n ≤ 90) ||
    decide (97 ≤ n ∧ n ≤ 122)

/-- Model of `re.findall(r'\$([a-zA-Z0-9]+)', text)`: the captured groups of the
left-to-right, non-overlapping matches of the cashtag pattern
(`tweet_analyzer.py`, lines 130-133).  `36` is the codepoint of `$`. -/
def findCashtagsAux : Nat → Text → List Text
  | 0, _ => []
  | _, [] => []
  | fuel + 1, c :: rest =>
    if c = 36 then
      let tag := rest.takeWhile isAlnum
      if tag.isEmpty then findCashtagsAux fuel rest
      else tag :: findCashtagsAux fuel (rest.drop tag.length)
    else findCashtagsAux fuel rest

/-- Entry point of the cashtag scan; the fuel `t.length` dominates the
number of remaining characters, so the scan always runs to the end. -/
def findCashtags (t : Text) : List Text := findCashtagsAux t.length t

/-- Model of `TweetAnalyzer._extract_coins` (`tweet_analyzer.py`, lines 111-136):
keywords matched case-insensitively by substring, cashtags scanned on the
text as received, then `list(set(...))` deduplication. -/
def extractCoins (text : Text) (keywords : List Text) : List Text :=
  let textLower := lowerText text
  let coins := keywords.filter (fun kw => containsSub (lowerText kw) textLower)
  let cashtags := findCashtags text
  (coins ++ cashtags).dedup

/-- The crypto sentiment lexicon of `TweetAnalyzer._load_crypto_lexicon`
(`tweet_analyzer.py`, lines 46-70), in source order (Python dictionaries
iterate in insertion order). -/
def cryptoLexicon : List (Text × ℚ) :=
  [ (str "moon", 8/10), (str "mooning", 8/10), (str "bullish", 6/10),
    (str "bearish", -(6/10)), (str "dump", -(7/10)), (str "pumping", 7/10),
    (str "scam", -(9/10)), (str "rugpull", -(9/10)), (str "gem", 7/10),
    (str "hodl", 5/10), (str "lambo", 6/10), (str "fomo", 3/10),
    (str "to the moon", 8/10), (str "going to zero", -(8/10)),
    (str "worthless", -(9/10)), (str "rocket", 7/10),
    (str "🚀", 7/10), (str "💎", 6/10), (str "🌙", 7/10),
    (str "💪", 5/10), (str "📉", -(7/10)), (str "📈", 7/10),
    (str "🔥", 6/10) ]

/-- The lexicon-adjustment loop of `TweetAnalyzer._analyze_sentiment`
(`tweet_analyzer.py`, lines 155-159): every matching entry is added to the
compound score, which is re-clamped to `[-1, 1]` after each addition. -/
def adjustCompound (lexicon : List (Text × ℚ)) (base : ℚ) (text : Text) : ℚ :=
  lexicon.foldl
    (fun c e =>
      if containsSub e.1 (lowerText text) then max (-1) (min 1 (c + e.2)) else c)
    base

/-- The classification rule of `TweetAnalyzer._analyze_sentiment`
(`tweet_analyzer.py`, lines 162-167). -/
def classifySentiment (compound : ℚ) : String :=
  if compound ≥ 5/100 then "positive"
  else if compound ≤ -(5/100) then "negative"
  else "neutral"

/-- Model of `TweetAnalyzer._analyze_sentiment` (`tweet_analyzer.py`, lines
138-167).  The NLTK model is external to the repository, so it is a
parameter: `none` models `self.sentiment_analyzer is None` (failed
initialisation), `some base` models `polarity_scores(text)['compound']`. -/
def analyzeSentiment (model : Option (Text → ℚ)) (lexicon : List (Text × ℚ))
    (text : Text) : String :=
  match model with
  | none => "neutral"
  | some base => classifySentiment (adjustCompound lexicon (base text) text)

/-- Round-half-to-even on a rational, the documented behaviour of Python's
built-in `round` to zero decimal places. -/
def roundHalfEven (x : ℚ) : ℤ :=
  if x - ⌊x⌋ > 1/2 then ⌊x⌋ + 1
  else if x - ⌊x⌋ < 1/2 then ⌊x⌋
  else if 2 ∣ ⌊x⌋ then ⌊x⌋ else ⌊x⌋ + 1

/-- Python's `round(x, 2)`. -/
def round2 (x : ℚ) : ℚ := (roundHalfEven (x * 100) : ℚ) / 100

/-- Model of `TweetAnalyzer._calculate_importance` (`tweet_analyzer.py`, lines
169-210): 40%-weighted capped engagement, 30%/20%/0% mention specificity,
20%/15%/0% sentiment extremity, capped at `1.0` and rounded to two
decimal places. -/
def calculateImportance (retweetCount likeCount : Nat)
    (coinsMentioned : List Text) (sentiment : String) : ℚ :=
  let engagementScore : ℚ :=
    min 1 (((retweetCount : ℚ) * (1/100) + (likeCount : ℚ) * (5/1000)) / 10)
  let s1 : ℚ := engagementScore * (4/10)
  let coinCount := coinsMentioned.length
  let s2 : ℚ := s1 + (if coinCount = 1 then 3/10
                      else if coinCount > 1 then 2/10 else 0)
  let s3 : ℚ := s2 + (if sentiment = "positive" then 2/10
                      else if sentiment = "negative" then 15/100 else 0)
  round2 (min 1 s3)

/-- The importance score as §4.3 of the specification words it: the same
three weighted terms, with the total clamped to `[0, 1]` (not merely
capped above) before rounding to two decimals. -/
def importanceSpec (retweetCount likeCount : Nat) (coinCount : Nat)
    (sentiment : String) : ℚ :=
  let engagementTerm : ℚ :=
    min 1 (((retweetCount : ℚ) * (1/100) + (likeCount : ℚ) * (5/1000)) / 10)
      * (4/10)
  let specificityTerm : ℚ :=
    if coinCount = 1 then 3/10 else if coinCount > 1 then 2/10 else 0
  let sentimentTerm : ℚ :=
    if sentiment = "positive" then 2/10
    else if sentiment = "negative" then 15/100 else 0
  round2 (max 0 (min 1 (engagementTerm + specificityTerm + sentimentTerm)))

/-- The fields of an incoming tweet dictionary that `analyze_tweet` reads:
`tweet.get("text", "")` (`none` models an absent `text` key) and the
engagement counts `tweet.get("retweet_count", 0)`, `tweet.get("like_count", 0)`. -/
structure Tweet where
  text : Option Text
  retweet_count : Nat
  like_count : Nat

/-- The analysis dictionary returned by `TweetAnalyzer.analyze_tweet`. -/
structure AnalysisResult where
  coins_mentioned : List Text
  sentiment : String
  importance_score : ℚ
deriving DecidableEq

/-- The `except` branch of `TweetAnalyzer.analyze_tweet`
(`tweet_analyzer.py`, lines 103-109): the value returned on any internal
failure. -/
def analyzeFailureResult : AnalysisResult :=
  { coins_mentioned := [], sentiment := "neutral", importance_score := 0 }

/-- Model of `TweetAnalyzer.analyze_tweet` (`tweet_analyzer.py`, lines 75-102).
Note line 87: the text is lower-cased before any extraction happens. -/
def analyzeTweet (model : Option (Text → ℚ)) (lexicon : List (Text × ℚ))
    (tweet : Tweet) (keywords : List Text) : AnalysisResult :=
  let text := lowerText (tweet.text.getD [])
  let coins := extractCoins text keywords
  let sentiment := analyzeSentiment model lexicon text
  let importance := calculateImportance tweet.retweet_count tweet.like_count
    coins sentiment
  { coins_mentioned := coins, sentiment := sentiment,
    importance_score := importance }

/-! ## Data processor (`src/data_processor.py`) -/

/-- One step of the Python accumulator idiom `d[k] = d.get(k, 0) + v` on an
insertion-ordered dictionary: the first entry with key `k` is updated, a
missing key is appended at the end. -/
def addTo {κ α : Type} [DecidableEq κ] [Add α] :
    List (κ × α) → κ → α → List (κ × α)
  | [], k, v => [(k, v)]
  | (k', a) :: t, k, v =>
    if k' = k then (k', a + v) :: t else (k', a) :: addTo t k v

/-- Dictionary lookup on an association list (first match). -/
def lookupKV {κ α : Type} [DecidableEq κ] (k : κ) : List (κ × α) → Option α
  | [] => none
  | (k', a) :: t => if k' = k then some a else lookupKV k t

/-- Folding a sequence of keyed contributions into an insertion-ordered
dictionary, the shape of every grouping loop in `data_processor.py`. -/
def groupFold {κ α : Type} [DecidableEq κ] [Add α]
    (rows : List (κ × α)) : List (κ × α) :=
  rows.foldl (fun acc r => addTo acc r.1 r.2) []

/-- Model of `collections.Counter` over a list: occurrence counts keyed in
first-encounter order. -/
def counter {κ : Type} [DecidableEq κ] (l : List κ) : List (κ × Nat) :=
  groupFold (l.map (fun k => (k, 1)))

/-- Python's stable descending sort by a numeric key
(`sort(key=..., reverse=True)` / `sorted(..., reverse=True)`). -/
def sortDescBy {α : Type} (f : α → Nat) (l : List α) : List α :=
  l.insertionSort (fun a b => f b ≤ f a)

/-- A stored analyzed tweet as `DataProcessor` consumes it: the analyzer
output (`coins_mentioned`, `sentiment`) plus author metadata.  The
`sentiment_score` field is the per-post numeric score that §3 of the
specification assigns to every `AnalyzedPost`; `data_processor.py` never
reads it. -/
structure StoredTweet where
  coins_mentioned : List Text
  sentiment : String
  sentiment_score : ℚ
  username : Text
deriving DecidableEq

/-- Model of `DataProcessor._update_trends` (`data_processor.py`, lines 59-87): the
coin-keyed mention counts handed to `db.update_coin_trend`, one call per
coin.  Each call passes only the coin, its occurrence count in the batch
and the cycle timestamp — no other aggregate. -/
def updateTrends (tweets : List StoredTweet) : List (Text × Nat) :=
  counter (tweets.flatMap (fun t => t.coins_mentioned))

/-- Model of `pandas.Series.value_counts().to_dict()`: occurrence counts in
descending count order. -/
def valueCounts {κ : Type} [DecidableEq κ] (l : List κ) : List (κ × Nat) :=
  sortDescBy (fun e => e.2) (counter l)

/-- The statistics record built by `DataProcessor._update_statistics` and
merged by `DataProcessor.get_statistics`. -/
structure Snapshot where
  total_tweets : Nat
  sentiment_distribution : List (String × Nat)
  tweets_by_celebrity : List (Text × Nat)
  top_coins : List (Text × Nat)
deriving DecidableEq

/-- Model of `DataProcessor._update_statistics` (`data_processor.py`, lines
89-134): `none` models the early return on an empty frame (nothing is
stored), otherwise the stored statistics dictionary.  `top_coins` is
`Counter(all_coins).most_common(10)`. -/
def updateStatistics (tweets : List StoredTweet) : Option Snapshot :=
  if tweets.isEmpty then none
  else some
    { total_tweets := tweets.length
      sentiment_distribution := valueCounts (tweets.map (fun t => t.sentiment))
      tweets_by_celebrity := valueCounts (tweets.map (fun t => t.username))
      top_coins :=
        (sortDescBy (fun e => e.2)
          (counter (tweets.flatMap (fun t => t.coins_mentioned)))).take 10 }

/-- Model of `DataProcessor.process_recent_data` (`data_processor.py`, lines
30-57), as a function of the fetched batch: the trend updates written and
the statistics record stored (if any).  With an empty batch the method
logs and returns before any aggregation. -/
def processRecentData (tweets : List StoredTweet) :
    List (Text × Nat) × Option Snapshot :=
  if tweets.isEmpty then ([], none)
  else (updateTrends tweets, updateStatistics tweets)

/-- A persisted coin-trend row as fetched by `db.get_coin_trends` and
consumed by `DataProcessor.get_trends` (missing keys default to `0` via
`trend.get(..., 0)`). -/
structure TrendRecord where
  coin : Text
  mention_count : Nat
  sentiment_score : ℚ
  celebrity_mentions : Nat
deriving DecidableEq

/-- The per-coin aggregate of `get_trends`:
`(mention_count, sentiment_score, celebrity_mentions)`. -/
abbrev TrendAgg := Nat × ℚ × Nat

/-- The merge step of `DataProcessor.get_trends` (`data_processor.py`,
lines 169-193): group the fetched rows by coin summing the three metrics,
sort descending by summed mention count, keep the top 20. -/
def getTrendsMerge (trends : List TrendRecord) : List (Text × TrendAgg) :=
  if trends.isEmpty then []
  else
    let grouped := groupFold (trends.map (fun t =>
      (t.coin, ((t.mention_count, t.sentiment_score, t.celebrity_mentions) : TrendAgg))))
    (sortDescBy (fun e => e.2.1) grouped).take 20

/-- Key-summing union of a sequence of dictionaries, the shape of the
three merge loops in `DataProcessor.get_statistics`. -/
def mergeMaps {κ α : Type} [DecidableEq κ] [Add α]
    (ls : List (List (κ × α))) : List (κ × α) :=
  ls.foldl (fun acc l => l.foldl (fun a r => addTo a r.1 r.2) acc) []

/-- The merge step of `DataProcessor.get_statistics` (`data_processor.py`,
lines 223-261): totals summed, the three dictionaries merged per key, and
`tweets_by_celebrity` and `top_coins` re-sorted descending and truncated
to 10. -/
def mergeStatistics (allStats : List Snapshot) : Snapshot :=
  if allStats.isEmpty then
    { total_tweets := 0, sentiment_distribution := [],
      tweets_by_celebrity := [], top_coins := [] }
  else
    { total_tweets := (allStats.map (fun s => s.total_tweets)).sum
      sentiment_distribution :=
        mergeMaps (allStats.map (fun s => s.sentiment_distribution))
      tweets_by_celebrity :=
        (sortDescBy (fun e => e.2)
          (mergeMaps (allStats.map (fun s => s.tweets_by_celebrity)))).take 10
      top_coins :=
        (sortDescBy (fun e => e.2)
          (mergeMaps (allStats.map (fun s => s.top_coins)))).take 10 }

/-- The date window `get_trends` queries with. -/
inductive TrendWindow
  | custom (startDate endDate : Text)
  | daysBack (n : Nat)
deriving DecidableEq

/-- Python truthiness of an optional string argument (`None` and `""` are
falsy). -/
def truthy : Option Text → Bool
  | none => false
  | some s => !s.isEmpty

/-- The timeframe dispatch of `DataProcessor.get_trends`
(`data_processor.py`, lines 149-164): `custom` with both dates keeps them;
`day`/`week`/`month` map to 1/7/30 days back; everything else falls into
the final `else` and gets the 1-day window. -/
def trendsWindow (timeframe : Text) (startDate endDate : Option Text) :
    TrendWindow :=
  if timeframe = str "custom" ∧ truthy startDate ∧ truthy endDate then
    TrendWindow.custom (startDate.getD []) (endDate.getD [])
  else if timeframe = str "day" then TrendWindow.daysBack 1
  else if timeframe = str "week" then TrendWindow.daysBack 7
  else if timeframe = str "month" then TrendWindow.daysBack 30
  else TrendWindow.daysBack 1

/-- The timeframe dispatch of `DataProcessor.get_statistics`
(`data_processor.py`, lines 210-218): days back for the start date; there
is no `custom` branch, so any timeframe outside `day`/`week`/`month`
(including `custom`) gets the 1-day window. -/
def statisticsWindow (timeframe : Text) : Nat :=
  if timeframe = str "day" then 1
  else if timeframe = str "week" then 7
  else if timeframe = str "month" then 30
  else 1

/-! ## Concrete inputs used in examples, witnesses and counterexamples -/

/-- The trend rows of the specification's merge example:
`[(DOGE,5),(DOGE,3),(SHIB,2)]`. -/
def exampleTrendRows : List TrendRecord :=
  [ { coin := str "DOGE", mention_count := 5, sentiment_score := 0,
      celebrity_mentions := 0 },
    { coin := str "DOGE", mention_count := 3, sentiment_score := 0,
      celebrity_mentions := 0 },
    { coin := str "SHIB", mention_count := 2, sentiment_score := 0,
      celebrity_mentions := 0 } ]

/-- A one-post batch whose post mentions DOGE with sentiment score `1/2`. -/
def batchPos : List StoredTweet :=
  [ { coins_mentioned := [str "DOGE"], sentiment := "positive",
      sentiment_score := 1/2, username := str "alice" } ]

/-- The same batch with the post's sentiment score negated. -/
def batchNeg : List StoredTweet :=
  [ { coins_mentioned := [str "DOGE"], sentiment := "positive",
      sentiment_score := -(1/2), username := str "alice" } ]

/-- A pair of statistics snapshots used to witness the merge theorems. -/
def exampleSnapshots : List Snapshot :=
  [ { total_tweets := 2, sentiment_distribution := [("positive", 2)],
      tweets_by_celebrity := [(str "alice", 2)],
      top_coins := [(str "DOGE", 2)] },
    { total_tweets := 1, sentiment_distribution := [("negative", 1)],
      tweets_by_celebrity := [(str "bob", 1)],
      top_coins := [(str "DOGE", 1), (str "SHIB", 1)] } ]

/-! ## Helper lemmas -/

theorem lowerChar_idem (n : Nat) : lowerChar (lowerChar n) = lowerChar n := by
  unfold lowerChar; split_ifs <;> omega

theorem lowerText_idem (t : Text) : lowerText (lowerText t) = lowerText t := by
  induction t with
  | nil => rfl
  | cons a t ih =>
    simp only [lowerText, List.map_cons, List.map_map] at ih ⊢
    rw [lowerChar_idem]
    exact congrArg _ ih

theorem floor_le_roundHalfEven (x : ℚ) : ⌊x⌋ ≤ roundHalfEven x := by
  unfold roundHalfEven; split_ifs <;> omega

theorem roundHalfEven_le_floor_add_one (x : ℚ) :
    roundHalfEven x ≤ ⌊x⌋ + 1 := by
  unfold roundHalfEven; split_ifs <;> omega

theorem roundHalfEven_nonneg {x : ℚ} (h : 0 ≤ x) : 0 ≤ roundHalfEven x := by
  have h0 : (0 : ℤ) ≤ ⌊x⌋ := Int.le_floor.mpr (by exact_mod_cast h)
  have := floor_le_roundHalfEven x
  omega

theorem roundHalfEven_le_of_le {x : ℚ} {m : ℤ} (h : x ≤ m) :
    roundHalfEven x ≤ m := by
  have hf : ⌊x⌋ ≤ m := by
    have := Int.floor_le_floor h
    simpa using this
  by_cases hm : ⌊x⌋ = m
  · have hxm : x = (m : ℚ) := by
      refine le_antisymm h ?_
      rw [← hm]
      exact Int.floor_le x
    subst hxm
    unfold roundHalfEven
    rw [Int.floor_intCast]
    norm_num
  · have h1 : ⌊x⌋ + 1 ≤ m := by omega
    exact (roundHalfEven_le_floor_add_one x).trans h1

theorem round2_nonneg {x : ℚ} (h : 0 ≤ x) : 0 ≤ round2 x := by
  unfold round2
  have h1 := roundHalfEven_nonneg (x := x * 100) (by positivity)
  have h2 : (0 : ℚ) ≤ (roundHalfEven (x * 100) : ℚ) := by exact_mod_cast h1
  positivity

theorem round2_le_one {x : ℚ} (h : x ≤ 1) : round2 x ≤ 1 := by
  unfold round2
  have h100 : x * 100 ≤ ((100 : ℤ) : ℚ) := by push_cast; linarith
  have h1 := roundHalfEven_le_of_le h100
  rw [div_le_one (by norm_num)]
  exact_mod_cast h1

/-! ## C1: importance score -/

/-- C1.  For every tweet, the importance score computed by the analyzer
equals the specification's weighted sum (engagement capped and weighted
40%, specificity `0.30`/`0.20`/`0.0`, sentiment `0.20`/`0.15`/`0.0`,
total clamped to `[0, 1]` and rounded to two decimals), it always lies in
`[0, 1]`, and a post with zero engagement, exactly one mentioned token and
positive sentiment scores `0.50`. -/
theorem importance_score_is_spec_weighted_sum :
    (∀ (rt lk : Nat) (coins : List Text) (sentiment : String),
        calculateImportance rt lk coins sentiment
          = importanceSpec rt lk coins.length sentiment
        ∧ 0 ≤ calculateImportance rt lk coins sentiment
        ∧ calculateImportance rt lk coins sentiment ≤ 1)
    ∧ calculateImportance 0 0 [str "doge"] "positive" = 1/2 := by
  constructor
  · intro rt lk coins sentiment
    have he : (0 : ℚ) ≤
        min 1 (((rt : ℚ) * (1/100) + (lk : ℚ) * (5/1000)) / 10) := by
      refine le_min (by norm_num) ?_
      positivity
    have hsp : (0 : ℚ) ≤
        (if coins.length = 1 then (3/10 : ℚ)
         else if coins.length > 1 then 2/10 else 0) := by
      split_ifs <;> norm_num
    have hse : (0 : ℚ) ≤
        (if sentiment = "positive" then (2/10 : ℚ)
         else if sentiment = "negative" then 15/100 else 0) := by
      split_ifs <;> norm_num
    have ht : (0 : ℚ) ≤
        min 1 (((rt : ℚ) * (1/100) + (lk : ℚ) * (5/1000)) / 10) * (4/10)
          + (if coins.length = 1 then (3/10 : ℚ)
             else if coins.length > 1 then 2/10 else 0)
          + (if sentiment = "positive" then (2/10 : ℚ)
             else if sentiment = "negative" then 15/100 else 0) := by
      have : (0 : ℚ) ≤
          min 1 (((rt : ℚ) * (1/100) + (lk : ℚ) * (5/1000)) / 10) * (4/10) := by
        positivity
      linarith
    refine ⟨?_, ?_, ?_⟩
    · simp only [calculateImportance, importanceSpec]
      congr 1
      rw [max_eq_right]
      exact le_min (by norm_num) (by linarith)
    · exact round2_nonneg (le_min (by norm_num) (by linarith))
    · exact round2_le_one (min_le_left _ _)
  · norm_num [calculateImportance, round2, roundHalfEven, min_def, max_def]

/-! ## C5: sentiment classification thresholds -/

/-- C5.  The lexicon-adjusted classification uses inclusive `±0.05`
thresholds on the compound score: exactly `0.05` is positive, exactly
`-0.05` is negative, and everything strictly between is neutral. -/
theorem sentiment_classification_thresholds :
    classifySentiment (5/100) = "positive"
    ∧ classifySentiment (-(5/100)) = "negative"
    ∧ ∀ c : ℚ, -(5/100) < c → c < 5/100 → classifySentiment c = "neutral" := by
  refine ⟨by norm_num [classifySentiment], by norm_num [classifySentiment], ?_⟩
  intro c h1 h2
  unfold classifySentiment
  rw [if_neg (by exact not_le.mpr h2), if_neg (by exact not_le.mpr h1)]

/-- Witness for C5 at the spec's sample points `0.0499` and `-0.0499`. -/
theorem sentiment_classification_thresholds_witness :
    classifySentiment (499/10000) = "neutral"
    ∧ classifySentiment (-(499/10000)) = "neutral" :=
  ⟨sentiment_classification_thresholds.2.2 (499/10000) (by norm_num)
      (by norm_num),
   sentiment_classification_thresholds.2.2 (-(499/10000)) (by norm_num)
      (by norm_num)⟩

/-! ## C6: compound score clamping -/

/-- C6.  For every base polarity score in the model's `[-1, 1]` range and
every text, the compound score after all matching crypto-lexicon
adjustments stays in `[-1, 1]`; the rocket/moon/bullish adjustments
(summing past `1` from base `0`) clamp to exactly `1`. -/
theorem compound_score_clamped :
    (∀ (base : ℚ) (text : Text), -1 ≤ base → base ≤ 1 →
        -1 ≤ adjustCompound cryptoLexicon base text
        ∧ adjustCompound cryptoLexicon base text ≤ 1)
    ∧ adjustCompound cryptoLexicon 0 (str "🚀 moon bullish") = 1 := by
  constructor
  · intro base text h1 h2
    suffices h : ∀ (lex : List (Text × ℚ)) (b : ℚ), -1 ≤ b → b ≤ 1 →
        -1 ≤ adjustCompound lex b text ∧ adjustCompound lex b text ≤ 1 from
      h cryptoLexicon base h1 h2
    intro lex
    induction lex with
    | nil => intro b hb1 hb2; exact ⟨hb1, hb2⟩
    | cons e rest ih =>
      intro b hb1 hb2
      have hfold : adjustCompound (e :: rest) b text
          = adjustCompound rest
              (if containsSub e.1 (lowerText text) then
                max (-1) (min 1 (b + e.2)) else b) text := rfl
      rw [hfold]
      apply ih
      · split_ifs with hc
        · exact le_max_left _ _
        · exact hb1
      · split_ifs with hc
        · exact max_le (by norm_num) (min_le_left _ _)
        · exact hb2
  · simp +decide only [adjustCompound, cryptoLexicon, List.foldl_cons,
      List.foldl_nil]
    norm_num [max_def, min_def]

/-- Witness for C6 at base `0` and a neutral text. -/
theorem compound_score_clamped_witness :
    -1 ≤ adjustCompound cryptoLexicon 0 (str "gm")
    ∧ adjustCompound cryptoLexicon 0 (str "gm") ≤ 1 :=
  compound_score_clamped.1 0 (str "gm") (by norm_num) (by norm_num)

/-! ## C7: analyzer error handling -/

/-- C7.  The analyzer's failure behaviour: with the sentiment model
unavailable every tweet classifies neutral (instead of failing); a tweet
missing its `text` field is analyzed exactly like one with empty text
(the `tweet.get("text", "")` default); and the value returned by the
catch-all failure branch is the neutral/empty result (no coins, neutral
sentiment, importance `0.0`).  In this embedding every operation is a
total function, which is the shallow form of "never raises". -/
theorem analyzer_never_fails_neutral_default :
    (∀ (lexicon : List (Text × ℚ)) (tweet : Tweet) (keywords : List Text),
        (analyzeTweet none lexicon tweet keywords).sentiment = "neutral")
    ∧ (∀ (model : Option (Text → ℚ)) (lexicon : List (Text × ℚ))
          (rt lk : Nat) (keywords : List Text),
        analyzeTweet model lexicon
            { text := none, retweet_count := rt, like_count := lk } keywords
          = analyzeTweet model lexicon
              { text := some [], retweet_count := rt, like_count := lk }
              keywords)
    ∧ analyzeFailureResult.coins_mentioned = []
    ∧ analyzeFailureResult.sentiment = "neutral"
    ∧ analyzeFailureResult.importance_score = 0 :=
  ⟨fun _ _ _ => rfl, fun _ _ _ _ _ => rfl, rfl, rfl, rfl⟩

/-! ## Association-list accumulator lemmas -/

section AssocLemmas

variable {κ α : Type} [DecidableEq κ]

theorem lookupKV_addTo_self [AddCommMonoid α] (l : List (κ × α)) (k : κ)
    (v : α) :
    lookupKV k (addTo l k v) = some ((lookupKV k l).getD 0 + v) := by
  induction l with
  | nil => simp [addTo, lookupKV]
  | cons e t ih =>
    obtain ⟨ke, a⟩ := e
    by_cases h : ke = k
    · subst h
      simp [addTo, lookupKV]
    · simp [addTo, lookupKV, h, ih]

theorem lookupKV_addTo_ne [Add α] (l : List (κ × α)) {k q : κ} (v : α)
    (h : q ≠ k) :
    lookupKV q (addTo l k v) = lookupKV q l := by
  induction l with
  | nil =>
    simp only [addTo, lookupKV]
    rw [if_neg (fun hh => h hh.symm)]
  | cons e t ih =>
    obtain ⟨ke, a⟩ := e
    by_cases h1 : ke = k
    · subst h1
      have hq : ¬ ke = q := fun hh => h hh.symm
      simp [addTo, lookupKV, hq]
    · simp [addTo, lookupKV, h1, ih]

theorem keys_addTo [Add α] (l : List (κ × α)) (k : κ) (v : α) :
    (addTo l k v).map Prod.fst
      = if k ∈ l.map Prod.fst then l.map Prod.fst
        else l.map Prod.fst ++ [k] := by
  induction l with
  | nil => simp [addTo]
  | cons e t ih =>
    obtain ⟨ke, a⟩ := e
    by_cases h : ke = k
    · subst h
      simp [addTo]
    · have hk : ¬ k = ke := fun hh => h hh.symm
      simp only [addTo, if_neg h, List.map_cons, ih]
      by_cases hm : k ∈ t.map Prod.fst
      · simp [hm, hk]
      · simp [hm, hk]

theorem nodup_keys_addTo [Add α] {l : List (κ × α)} (k : κ) (v : α)
    (h : (l.map Prod.fst).Nodup) : ((addTo l k v).map Prod.fst).Nodup := by
  rw [keys_addTo]
  split_ifs with hm
  · exact h
  · exact List.Nodup.append h (List.nodup_singleton k)
      (by simpa [List.disjoint_singleton] using hm)

theorem nodup_keys_foldl_addTo [Add α] (rows : List (κ × α))
    (acc : List (κ × α)) (h : (acc.map Prod.fst).Nodup) :
    (((rows.foldl (fun a r => addTo a r.1 r.2) acc)).map Prod.fst).Nodup := by
  induction rows generalizing acc with
  | nil => simpa using h
  | cons r rs ih => exact ih _ (nodup_keys_addTo r.1 r.2 h)

theorem lookupKV_foldl_addTo [AddCommMonoid α] (rows : List (κ × α))
    (acc : List (κ × α)) (k : κ) :
    (lookupKV k (rows.foldl (fun a r => addTo a r.1 r.2) acc)).getD 0
      = (lookupKV k acc).getD 0
        + ((rows.filter (fun r => r.1 = k)).map Prod.snd).sum := by
  induction rows generalizing acc with
  | nil => simp
  | cons r rs ih =>
    rw [List.foldl_cons, ih]
    by_cases h : r.1 = k
    · rw [h, lookupKV_addTo_self]
      simp [List.filter_cons, h, add_assoc]
    · rw [lookupKV_addTo_ne _ _ (fun hh => h hh.symm)]
      simp [List.filter_cons, h]

theorem lookupKV_isSome_foldl_addTo [AddCommMonoid α] (rows : List (κ × α))
    (acc : List (κ × α)) (k : κ) :
    (lookupKV k (rows.foldl (fun a r => addTo a r.1 r.2) acc)).isSome
      = ((lookupKV k acc).isSome || rows.any (fun r => decide (r.1 = k))) := by
  induction rows generalizing acc with
  | nil => simp
  | cons r rs ih =>
    rw [List.foldl_cons, ih]
    by_cases h : r.1 = k
    · rw [h, lookupKV_addTo_self]
      simp [h]
    · rw [lookupKV_addTo_ne _ _ (fun hh => h hh.symm)]
      simp [h, Bool.or_assoc]

theorem lookupKV_eq_of_mem_nodup {l : List (κ × α)} {k : κ} {a : α}
    (h : (l.map Prod.fst).Nodup) (hm : (k, a) ∈ l) :
    lookupKV k l = some a := by
  induction l with
  | nil => cases hm
  | cons e t ih =>
    obtain ⟨ke, b⟩ := e
    rcases List.mem_cons.mp hm with heq | ht
    · obtain ⟨h1, h2⟩ := Prod.mk.injEq .. ▸ heq
      simp [lookupKV, h1.symm, h2]
    · by_cases hke : ke = k
      · exfalso
        subst hke
        have : ke ∈ t.map Prod.fst := List.mem_map.mpr ⟨(ke, a), ht, rfl⟩
        exact (List.nodup_cons.mp h).1 this
      · simp only [lookupKV, if_neg hke]
        exact ih (List.nodup_cons.mp h).2 ht

theorem lookupKV_some_getD {l : List (κ × α)} {k : κ} (z : α)
    (h : (lookupKV k l).isSome = true) :
    lookupKV k l = some ((lookupKV k l).getD z) := by
  cases hl : lookupKV k l with
  | none => rw [hl] at h; cases h
  | some a => simp

end AssocLemmas

/-! ## Sorting lemmas -/

section SortLemmas

variable {α : Type}

theorem sortDescBy_perm (f : α → Nat) (l : List α) :
    (sortDescBy f l).Perm l :=
  List.perm_insertionSort _ _

theorem sortDescBy_sorted (f : α → Nat) (l : List α) :
    (sortDescBy f l).Sorted (fun a b => f b ≤ f a) := by
  haveI : IsTotal α (fun a b => f b ≤ f a) := ⟨fun a b => le_total (f b) (f a)⟩
  haveI : IsTrans α (fun a b => f b ≤ f a) :=
    ⟨fun _ _ _ hab hbc => le_trans hbc hab⟩
  exact List.sorted_insertionSort _ _

theorem sorted_take {r : α → α → Prop} {l : List α} (h : l.Sorted r)
    (n : Nat) : (l.take n).Sorted r :=
  List.Pairwise.sublist (List.take_sublist n l) h

theorem sorted_take_drop {r : α → α → Prop} {l : List α} (h : l.Sorted r)
    (n : Nat) : ∀ x ∈ l.take n, ∀ y ∈ l.drop n, r x y := by
  have hsplit : l.take n ++ l.drop n = l := List.take_append_drop n l
  rw [← hsplit] at h
  exact (List.pairwise_append.mp h).2.2

end SortLemmas

/-! ## Derived helper lemmas for the aggregation claims -/

theorem mem_of_lookupKV_some {κ α : Type} [DecidableEq κ]
    {l : List (κ × α)} {k : κ} {a : α} (h : lookupKV k l = some a) :
    (k, a) ∈ l := by
  induction l with
  | nil => cases h
  | cons e t ih =>
    obtain ⟨ke, b⟩ := e
    by_cases hk : ke = k
    · subst hk
      have hba : b = a := by simpa [lookupKV] using h
      subst hba
      exact List.mem_cons_self _ _
    · simp only [lookupKV, if_neg hk] at h
      exact List.mem_cons.mpr (Or.inr (ih h))

theorem mergeMaps_eq_groupFold {κ α : Type} [DecidableEq κ] [Add α]
    (ls : List (List (κ × α))) : mergeMaps ls = groupFold ls.flatten := by
  rw [mergeMaps, groupFold, List.foldl_flatten]

theorem sum_trendAgg (l : List TrendRecord) :
    (l.map (fun t =>
        ((t.mention_count, t.sentiment_score, t.celebrity_mentions) :
          TrendAgg))).sum
      = ((l.map (fun t => t.mention_count)).sum,
         (l.map (fun t => t.sentiment_score)).sum,
         (l.map (fun t => t.celebrity_mentions)).sum) := by
  induction l with
  | nil => rfl
  | cons t ts ih => simp [ih, Prod.mk_add_mk]

theorem length_filter_eq_of_nodup {l : List Text} (h : l.Nodup)
    (coin : Text) :
    (l.filter (fun x => x = coin)).length = if coin ∈ l then 1 else 0 := by
  induction l with
  | nil => simp
  | cons a t ih =>
    rcases List.nodup_cons.mp h with ⟨ha, ht⟩
    by_cases hac : a = coin
    · subst hac
      have hfil : t.filter (fun x => x = a) = [] :=
        List.filter_eq_nil_iff.mpr (fun b hb hba => ha (by
          have : b = a := by simpa using hba
          rwa [this] at hb))
      simp [List.filter_cons, hfil]
    · have hca : ¬ coin = a := fun hh => hac hh.symm
      simp only [List.filter_cons]
      rw [if_neg (by simpa using hac), ih ht]
      by_cases hct : coin ∈ t
      · simp [hct, List.mem_cons]
      · simp [hct, List.mem_cons, hca]

theorem length_filter_flatMap (tweets : List StoredTweet) (coin : Text)
    (h : ∀ t ∈ tweets, t.coins_mentioned.Nodup) :
    ((tweets.flatMap (fun t => t.coins_mentioned)).filter
        (fun x => x = coin)).length
      = (tweets.filter (fun t => coin ∈ t.coins_mentioned)).length := by
  induction tweets with
  | nil => simp
  | cons t ts ih =>
    have hthead : t.coins_mentioned.Nodup := h t (List.mem_cons_self t ts)
    have htail : ∀ u ∈ ts, u.coins_mentioned.Nodup :=
      fun u hu => h u (List.mem_cons_of_mem t hu)
    rw [List.flatMap_cons, List.filter_append, List.length_append, ih htail,
      length_filter_eq_of_nodup hthead coin, List.filter_cons]
    by_cases hm : coin ∈ t.coins_mentioned
    · rw [if_pos hm, if_pos (by simpa using hm)]
      simp only [List.length_cons]
      omega
    · rw [if_neg hm, if_neg (by simpa using hm)]
      omega

theorem mem_findCashtagsAux_mem : ∀ (fuel : Nat) (t tag : Text),
    tag ∈ findCashtagsAux fuel t → ∀ c ∈ tag, c ∈ t := by
  intro fuel
  induction fuel with
  | zero =>
    intro t tag htag
    simp [findCashtagsAux] at htag
  | succ fuel ih =>
    intro t tag htag c hc
    match t with
    | [] => simp [findCashtagsAux] at htag
    | d :: rest =>
      by_cases hd : d = 36
      · by_cases hemp : (rest.takeWhile isAlnum).isEmpty
        · rw [show findCashtagsAux (fuel + 1) (d :: rest)
              = findCashtagsAux fuel rest by
                simp [findCashtagsAux, hd, hemp]] at htag
          exact List.mem_cons_of_mem d (ih rest tag htag c hc)
        · rw [show findCashtagsAux (fuel + 1) (d :: rest)
              = rest.takeWhile isAlnum ::
                  findCashtagsAux fuel
                    (rest.drop (rest.takeWhile isAlnum).length) by
                simp [findCashtagsAux, hd, hemp]] at htag
          rcases List.mem_cons.mp htag with rfl | hrec
          · exact List.mem_cons_of_mem d
              ((List.takeWhile_sublist isAlnum).subset hc)
          · exact List.mem_cons_of_mem d
              (List.drop_subset _ rest (ih _ tag hrec c hc))
      · rw [show findCashtagsAux (fuel + 1) (d :: rest)
            = findCashtagsAux fuel rest by simp [findCashtagsAux, hd]] at htag
        exact List.mem_cons_of_mem d (ih rest tag htag c hc)

theorem lowerText_fixed_of_mem {l : Text}
    (h : ∀ c ∈ l, lowerChar c = c) : lowerText l = l := by
  induction l with
  | nil => rfl
  | cons a t ih =>
    simp only [lowerText, List.map_cons] at ih ⊢
    rw [h a (List.mem_cons_self a t), ih (fun c hc => h c (List.mem_cons_of_mem a hc))]

theorem mem_lowerText_fixed {raw : Text} {c : Nat}
    (h : c ∈ lowerText raw) : lowerChar c = c := by
  rcases List.mem_map.mp h with ⟨d, _, rfl⟩
  exact lowerChar_idem d

theorem lookupKV_groupFold {κ α : Type} [DecidableEq κ] [AddCommMonoid α]
    (rows : List (κ × α)) (k : κ) :
    (lookupKV k (groupFold rows)).getD 0
      = ((rows.filter (fun r => r.1 = k)).map Prod.snd).sum := by
  have h := lookupKV_foldl_addTo rows [] k
  simpa [groupFold, lookupKV] using h

theorem lookupKV_isSome_groupFold {κ α : Type} [DecidableEq κ]
    [AddCommMonoid α] (rows : List (κ × α)) (k : κ) :
    (lookupKV k (groupFold rows)).isSome
      = rows.any (fun r => decide (r.1 = k)) := by
  have h := lookupKV_isSome_foldl_addTo rows [] k
  simpa [groupFold, lookupKV] using h

theorem nodup_keys_groupFold {κ α : Type} [DecidableEq κ] [Add α]
    (rows : List (κ × α)) : ((groupFold rows).map Prod.fst).Nodup :=
  nodup_keys_foldl_addTo rows [] (by simp)

theorem take_sortDescBy_props {κ β : Type} [DecidableEq κ] (w : β → Nat)
    (merged : List (κ × β)) (hnd : (merged.map Prod.fst).Nodup) (n : Nat) :
    ((sortDescBy (fun e => w e.2) merged).take n).length ≤ n
    ∧ ((sortDescBy (fun e => w e.2) merged).take n).Sorted
        (fun a b => w b.2 ≤ w a.2)
    ∧ (∀ e ∈ (sortDescBy (fun e => w e.2) merged).take n,
        lookupKV e.1 merged = some e.2)
    ∧ (∀ e ∈ (sortDescBy (fun e => w e.2) merged).take n,
        ∀ (q : κ) (b : β), lookupKV q merged = some b →
          q ∉ ((sortDescBy (fun e => w e.2) merged).take n).map Prod.fst →
          w b ≤ w e.2) := by
  refine ⟨?_, ?_, ?_, ?_⟩
  · simp [List.length_take]
  · exact sorted_take (sortDescBy_sorted _ _) n
  · intro e he
    have hm : e ∈ merged :=
      (sortDescBy_perm _ _).mem_iff.mp (List.mem_of_mem_take he)
    exact lookupKV_eq_of_mem_nodup hnd hm
  · intro e he q b hlk hq
    have hmem : (q, b) ∈ merged := mem_of_lookupKV_some hlk
    have hL : (q, b) ∈ sortDescBy (fun e => w e.2) merged :=
      (sortDescBy_perm _ _).mem_iff.mpr hmem
    rw [← List.take_append_drop n (sortDescBy (fun e => w e.2) merged)] at hL
    rcases List.mem_append.mp hL with h1 | h2
    · exact absurd (List.mem_map.mpr ⟨(q, b), h1, rfl⟩) hq
    · exact sorted_take_drop (sortDescBy_sorted _ _) n e he (q, b) h2

/-! ## C2: trend merge -/

/-- C2.  The `get_trends` merge groups the fetched rows by coin, sums the
three metrics within each group, sorts descending by summed mention count,
and returns at most the TOP 20: every returned entry carries its group's
exact sums, and every coin left out of the result has a summed mention
count no larger than any returned entry's.  On the specification's example
`[(DOGE,5),(DOGE,3),(SHIB,2)]` it yields `[(DOGE,8),(SHIB,2)]`. -/
theorem trends_merge_groups_sums_sorts_top20 :
    (∀ rows : List TrendRecord,
        (getTrendsMerge rows).length ≤ 20
        ∧ (getTrendsMerge rows).Sorted (fun a b => b.2.1 ≤ a.2.1)
        ∧ ∀ e ∈ getTrendsMerge rows,
            (e.2 = (((rows.filter (fun t => t.coin = e.1)).map
                      (fun t => t.mention_count)).sum,
                   ((rows.filter (fun t => t.coin = e.1)).map
                      (fun t => t.sentiment_score)).sum,
                   ((rows.filter (fun t => t.coin = e.1)).map
                      (fun t => t.celebrity_mentions)).sum)
             ∧ ∀ q : Text, q ∉ (getTrendsMerge rows).map Prod.fst →
                 ((rows.filter (fun t => t.coin = q)).map
                    (fun t => t.mention_count)).sum ≤ e.2.1))
    ∧ getTrendsMerge exampleTrendRows
        = [(str "DOGE", ((8 : Nat), (0 : ℚ), (0 : Nat))),
           (str "SHIB", ((2 : Nat), (0 : ℚ), (0 : Nat)))] := by
  constructor
  · intro rows
    by_cases hrows : rows.isEmpty
    · simp [getTrendsMerge, hrows]
    · have hdef : getTrendsMerge rows
          = (sortDescBy (fun e => e.2.1)
              (groupFold (rows.map (fun t =>
                (t.coin, ((t.mention_count, t.sentiment_score,
                  t.celebrity_mentions) : TrendAgg)))))).take 20 := by
        simp [getTrendsMerge, hrows]
      obtain ⟨h1, h2, h3, h4⟩ :=
        take_sortDescBy_props (fun v : TrendAgg => v.1)
          (groupFold (rows.map (fun t =>
            (t.coin, ((t.mention_count, t.sentiment_score,
              t.celebrity_mentions) : TrendAgg)))))
          (nodup_keys_groupFold _) 20
      rw [hdef]
      refine ⟨h1, h2, ?_⟩
      intro e he
      have hfil : ∀ k : Text, ((fun r : Text × TrendAgg => decide (r.1 = k)) ∘
            (fun t : TrendRecord =>
              (t.coin, ((t.mention_count, t.sentiment_score,
                t.celebrity_mentions) : TrendAgg))))
          = fun t : TrendRecord => decide (t.coin = k) := fun k => rfl
      have hsnd : (Prod.snd ∘ (fun t : TrendRecord =>
            (t.coin, ((t.mention_count, t.sentiment_score,
              t.celebrity_mentions) : TrendAgg))))
          = fun t : TrendRecord =>
              ((t.mention_count, t.sentiment_score,
                t.celebrity_mentions) : TrendAgg) := rfl
      have hchar : ∀ k : Text,
          (lookupKV k (groupFold (rows.map (fun t =>
              (t.coin, ((t.mention_count, t.sentiment_score,
                t.celebrity_mentions) : TrendAgg)))))).getD 0
            = (((rows.filter (fun t => t.coin = k)).map
                  (fun t => t.mention_count)).sum,
               ((rows.filter (fun t => t.coin = k)).map
                  (fun t => t.sentiment_score)).sum,
               ((rows.filter (fun t => t.coin = k)).map
                  (fun t => t.celebrity_mentions)).sum) := by
        intro k
        rw [lookupKV_groupFold, List.filter_map, List.map_map, hfil k, hsnd,
          sum_trendAgg]
      constructor
      · have hsome := h3 e he
        have hch := hchar e.1
        rw [hsome] at hch
        simpa using hch
      · intro q hq
        by_cases hqs : (lookupKV q (groupFold (rows.map (fun t =>
            (t.coin, ((t.mention_count, t.sentiment_score,
              t.celebrity_mentions) : TrendAgg)))))).isSome
        · have hlk := lookupKV_some_getD (0 : TrendAgg) hqs
          have hb := h4 e he q _ hlk hq
          rw [hchar q] at hb
          exact hb
        · have hnone : lookupKV q (groupFold (rows.map (fun t =>
              (t.coin, ((t.mention_count, t.sentiment_score,
                t.celebrity_mentions) : TrendAgg))))) = none := by
            cases hl : lookupKV q (groupFold (rows.map (fun t =>
                (t.coin, ((t.mention_count, t.sentiment_score,
                  t.celebrity_mentions) : TrendAgg))))) with
            | none => rfl
            | some a => rw [hl] at hqs; simp at hqs
          have hch := hchar q
          rw [hnone] at hch
          simp only [Option.getD_none] at hch
          have h0 : ((rows.filter (fun t => t.coin = q)).map
              (fun t => t.mention_count)).sum = 0 := by
            have := congrArg Prod.fst hch
            simpa using this.symm
          rw [h0]
          exact Nat.zero_le _
  · simp +decide [getTrendsMerge, groupFold, addTo, sortDescBy,
      exampleTrendRows, List.insertionSort, List.orderedInsert]

/-- Witness for C2: the DOGE entry of the merged example carries the
summed metrics of the two DOGE rows, and the absent coin PEPE's summed
mention count does not exceed the DOGE entry's. -/
theorem trends_merge_groups_sums_sorts_top20_witness :
    ((((8 : Nat), (0 : ℚ), (0 : Nat)) : TrendAgg)
      = (((exampleTrendRows.filter (fun t => t.coin = str "DOGE")).map
            (fun t => t.mention_count)).sum,
         ((exampleTrendRows.filter (fun t => t.coin = str "DOGE")).map
            (fun t => t.sentiment_score)).sum,
         ((exampleTrendRows.filter (fun t => t.coin = str "DOGE")).map
            (fun t => t.celebrity_mentions)).sum))
    ∧ ((exampleTrendRows.filter (fun t => t.coin = str "PEPE")).map
          (fun t => t.mention_count)).sum ≤ 8 := by
  have hmem : ((str "DOGE", (((8 : Nat), (0 : ℚ), (0 : Nat)) : TrendAgg)))
      ∈ getTrendsMerge exampleTrendRows := by
    rw [trends_merge_groups_sums_sorts_top20.2]
    simp
  have he := (trends_merge_groups_sums_sorts_top20.1 exampleTrendRows).2.2
    _ hmem
  refine ⟨he.1, he.2 (str "PEPE") ?_⟩
  rw [trends_merge_groups_sums_sorts_top20.2]
  decide

/-! ## C8: statistics merge caps -/

theorem capped_merge_field {κ : Type} [DecidableEq κ]
    (ls : List (List (κ × Nat))) (n : Nat) :
    ((sortDescBy (fun e => e.2) (mergeMaps ls)).take n).length ≤ n
    ∧ ((sortDescBy (fun e => e.2) (mergeMaps ls)).take n).Sorted
        (fun a b => b.2 ≤ a.2)
    ∧ ∀ e ∈ (sortDescBy (fun e => e.2) (mergeMaps ls)).take n,
        (e.2 = ((ls.flatten.filter (fun r => r.1 = e.1)).map Prod.snd).sum
         ∧ ∀ q : κ,
             q ∉ ((sortDescBy (fun e => e.2) (mergeMaps ls)).take n).map
                   Prod.fst →
             ((ls.flatten.filter (fun r => r.1 = q)).map Prod.snd).sum
               ≤ e.2) := by
  have hmm : mergeMaps ls = groupFold ls.flatten := mergeMaps_eq_groupFold ls
  obtain ⟨h1, h2, h3, h4⟩ :=
    take_sortDescBy_props (fun b : Nat => b) (groupFold ls.flatten)
      (nodup_keys_groupFold _) n
  rw [hmm]
  refine ⟨h1, h2, ?_⟩
  intro e he
  constructor
  · have hsome := h3 e he
    have hch := lookupKV_groupFold ls.flatten e.1
    rw [hsome] at hch
    simpa using hch
  · intro q hq
    by_cases hqs : (lookupKV q (groupFold ls.flatten)).isSome
    · have hlk := lookupKV_some_getD (0 : Nat) hqs
      have hb := h4 e he q _ hlk hq
      have hch := lookupKV_groupFold ls.flatten q
      rw [← hch]
      exact hb
    · have hnone : lookupKV q (groupFold ls.flatten) = none := by
        cases hl : lookupKV q (groupFold ls.flatten) with
        | none => rfl
        | some a => rw [hl] at hqs; simp at hqs
      have hch := lookupKV_groupFold ls.flatten q
      rw [hnone] at hch
      simp only [Option.getD_none] at hch
      rw [← hch]
      exact Nat.zero_le _

/-- C8.  After the `get_statistics` merge, `top_coins` and
`tweets_by_celebrity` each hold at most 10 entries, in descending order of
summed count, and the kept entries dominate every key left out (every
entry's count is the key's total across the merged snapshots). -/
theorem statistics_merge_truncates_to_top10 :
    ∀ snaps : List Snapshot,
      (mergeStatistics snaps).top_coins.length ≤ 10
      ∧ (mergeStatistics snaps).tweets_by_celebrity.length ≤ 10
      ∧ (mergeStatistics snaps).top_coins.Sorted (fun a b => b.2 ≤ a.2)
      ∧ (mergeStatistics snaps).tweets_by_celebrity.Sorted
          (fun a b => b.2 ≤ a.2)
      ∧ (∀ e ∈ (mergeStatistics snaps).top_coins,
          e.2 = (((snaps.map (fun s => s.top_coins)).flatten.filter
                    (fun r => r.1 = e.1)).map Prod.snd).sum
          ∧ ∀ q : Text,
              q ∉ (mergeStatistics snaps).top_coins.map Prod.fst →
              (((snaps.map (fun s => s.top_coins)).flatten.filter
                  (fun r => r.1 = q)).map Prod.snd).sum ≤ e.2)
      ∧ (∀ e ∈ (mergeStatistics snaps).tweets_by_celebrity,
          e.2 = (((snaps.map (fun s => s.tweets_by_celebrity)).flatten.filter
                    (fun r => r.1 = e.1)).map Prod.snd).sum
          ∧ ∀ q : Text,
              q ∉ (mergeStatistics snaps).tweets_by_celebrity.map Prod.fst →
              (((snaps.map (fun s => s.tweets_by_celebrity)).flatten.filter
                  (fun r => r.1 = q)).map Prod.snd).sum ≤ e.2) := by
  intro snaps
  by_cases hs : snaps.isEmpty
  · have hnil : snaps = [] := List.isEmpty_iff.mp hs
    subst hnil
    simp [mergeStatistics]
  · have hdefc : (mergeStatistics snaps).top_coins
        = (sortDescBy (fun e => e.2)
            (mergeMaps (snaps.map (fun s => s.top_coins)))).take 10 := by
      simp [mergeStatistics, hs]
    have hdefa : (mergeStatistics snaps).tweets_by_celebrity
        = (sortDescBy (fun e => e.2)
            (mergeMaps (snaps.map (fun s => s.tweets_by_celebrity)))).take
            10 := by
      simp [mergeStatistics, hs]
    obtain ⟨hc1, hc2, hc3⟩ :=
      capped_merge_field (snaps.map (fun s => s.top_coins)) 10
    obtain ⟨ha1, ha2, ha3⟩ :=
      capped_merge_field (snaps.map (fun s => s.tweets_by_celebrity)) 10
    rw [hdefc, hdefa]
    exact ⟨hc1, ha1, hc2, ha2, hc3, ha3⟩

/-- Witness for C8 at the example snapshots: the kept DOGE entry's count
is DOGE's summed count, and the absent key PEPE's total does not exceed
it. -/
theorem statistics_merge_truncates_to_top10_witness :
    ((3 : Nat) = (((exampleSnapshots.map (fun s => s.top_coins)).flatten.filter
          (fun r => r.1 = str "DOGE")).map Prod.snd).sum)
    ∧ (((exampleSnapshots.map (fun s => s.top_coins)).flatten.filter
          (fun r => r.1 = str "PEPE")).map Prod.snd).sum ≤ 3 := by
  have h := statistics_merge_truncates_to_top10 exampleSnapshots
  have he := h.2.2.2.2.1 (str "DOGE", 3) (by decide)
  exact ⟨he.1, he.2 (str "PEPE") (by decide)⟩

/-! ## C4: per-cycle trend rows -/

/-- Counterexample for C4: two one-post batches that differ only in the
post's sentiment score produce identical trend updates (the cycle writes
only coin and mention count), so no trend row produced by the cycle can
carry the batch's sentiment-score sum. -/
theorem trend_update_ignores_sentiment_scores :
    updateTrends batchPos = updateTrends batchNeg
    ∧ processRecentData batchPos = processRecentData batchNeg
    ∧ (batchPos.map (fun t => t.sentiment_score)).sum
        ≠ (batchNeg.map (fun t => t.sentiment_score)).sum := by
  refine ⟨by decide, ?_, ?_⟩
  · have h : batchPos.map (fun t => t.sentiment_score)
        = [1/2] := by simp [batchPos]
    simp only [processRecentData, updateStatistics, updateTrends]
    decide
  · simp only [batchPos, batchNeg, List.map_cons, List.map_nil,
      List.sum_cons, List.sum_nil]
    norm_num

/-- C4 (amended).  In a cycle, each token mentioned in the batch yields
exactly one trend update, whose mention count equals the number of
contributing posts (for analyzed posts, whose token lists are
duplicate-free); the update carries no sentiment or influencer aggregate. -/
theorem update_trends_mention_counts :
    (∀ (tweets : List StoredTweet) (coin : Text),
        (∀ t ∈ tweets, t.coins_mentioned.Nodup) →
        coin ∈ tweets.flatMap (fun t => t.coins_mentioned) →
        lookupKV coin (updateTrends tweets)
          = some ((tweets.filter
              (fun t => coin ∈ t.coins_mentioned)).length))
    ∧ ∀ tweets : List StoredTweet,
        ((updateTrends tweets).map Prod.fst).Nodup := by
  constructor
  · intro tweets coin hnd hmem
    have hrows :
        (lookupKV coin (counter (tweets.flatMap
            (fun t => t.coins_mentioned)))).isSome = true := by
      rw [counter, lookupKV_isSome_groupFold]
      simp only [List.any_eq_true, List.mem_map]
      exact ⟨(coin, 1), ⟨coin, hmem, rfl⟩, by simp⟩
    have hsome := lookupKV_some_getD (0 : Nat) hrows
    have key : (lookupKV coin (counter (tweets.flatMap
          (fun t => t.coins_mentioned)))).getD 0
        = (tweets.filter (fun t => coin ∈ t.coins_mentioned)).length := by
      rw [counter, lookupKV_groupFold, List.filter_map, List.map_map]
      have hfil : ((fun r : Text × Nat => decide (r.1 = coin)) ∘
            (fun k : Text => (k, 1)))
          = fun k : Text => decide (k = coin) := rfl
      have hsnd : (Prod.snd ∘ (fun k : Text => ((k, 1) : Text × Nat)))
          = fun _ : Text => 1 := rfl
      rw [hfil, hsnd, ← length_filter_flatMap tweets coin hnd]
      generalize (tweets.flatMap (fun t => t.coins_mentioned)).filter
        (fun x => x = coin) = l
      induction l with
    | nil => rfl
    | cons a t ih => simp [ih]; omega
    rw [updateTrends, hsome, key]
  · intro tweets
    exact nodup_keys_groupFold _

/-- Witness for C4's amended statement on the DOGE batch. -/
theorem update_trends_mention_counts_witness :
    lookupKV (str "DOGE") (updateTrends batchPos)
      = some ((batchPos.filter
          (fun t => str "DOGE" ∈ t.coins_mentioned)).length) :=
  update_trends_mention_counts.1 batchPos (str "DOGE") (by decide) (by decide)

/-! ## C9: empty processing cycle -/

/-- Counterexample for C9: a cycle over zero posts stores no statistics
record at all (the method returns before aggregating), so it does not
produce a snapshot with `total_posts = 0`. -/
theorem empty_cycle_stores_no_snapshot :
    ¬ ∃ s : Snapshot,
        (processRecentData []).2 = some s ∧ s.total_tweets = 0 := by
  simp [processRecentData]

/-- C9 (amended).  A processing cycle with zero input posts is a no-op:
it produces zero trend updates and stores no statistics snapshot (and, the
embedding being total, does not raise). -/
theorem empty_cycle_is_noop : processRecentData [] = ([], none) := rfl

/-! ## C10: timeframe fallback -/

/-- C10.  Any timeframe outside `day`/`week`/`month`/`custom` silently
falls back to the 1-day window in both `get_trends` and `get_statistics`;
`custom` with a missing (or empty, hence falsy) start or end date falls
back in `get_trends`; and `get_statistics`, which has no `custom` branch
at all, gives `custom` the 1-day window unconditionally. -/
theorem unknown_timeframe_falls_back_to_one_day :
    (∀ (tf : Text) (sd ed : Option Text),
        tf ≠ str "day" → tf ≠ str "week" → tf ≠ str "month" →
        tf ≠ str "custom" →
        trendsWindow tf sd ed = TrendWindow.daysBack 1
        ∧ statisticsWindow tf = 1)
    ∧ (∀ sd ed : Option Text, truthy sd = false ∨ truthy ed = false →
        trendsWindow (str "custom") sd ed = TrendWindow.daysBack 1)
    ∧ statisticsWindow (str "custom") = 1 := by
  refine ⟨?_, ?_, by decide⟩
  · intro tf sd ed h1 h2 h3 h4
    have hc : ¬ (tf = str "custom" ∧ truthy sd = true ∧ truthy ed = true) :=
      fun hh => h4 hh.1
    constructor
    · simp only [trendsWindow, if_neg hc, if_neg h1, if_neg h2, if_neg h3]
    · simp only [statisticsWindow, if_neg h1, if_neg h2, if_neg h3]
  · intro sd ed hor
    have hA : ¬ (str "custom" = str "custom"
        ∧ truthy sd = true ∧ truthy ed = true) := by
      rintro ⟨-, hsd, hed⟩
      rcases hor with h | h
      · rw [h] at hsd; cases hsd
      · rw [h] at hed; cases hed
    simp only [trendsWindow, if_neg hA,
      if_neg (by decide : ¬ (str "custom" = str "day")),
      if_neg (by decide : ¬ (str "custom" = str "week")),
      if_neg (by decide : ¬ (str "custom" = str "month"))]
    rcases hor with h | h
    · simp [h]
    · simp [h]

/-- Witness for C10: the unknown timeframe `year` and a `custom` request
missing its end date both get the 1-day window. -/
theorem unknown_timeframe_falls_back_to_one_day_witness :
    (trendsWindow (str "year") none none = TrendWindow.daysBack 1
      ∧ statisticsWindow (str "year") = 1)
    ∧ trendsWindow (str "custom") (some (str "2024-01-01")) none
        = TrendWindow.daysBack 1 :=
  ⟨unknown_timeframe_falls_back_to_one_day.1 (str "year") none none
      (by decide) (by decide) (by decide) (by decide),
   unknown_timeframe_falls_back_to_one_day.2.1 (some (str "2024-01-01")) none
      (Or.inr rfl)⟩

/-! ## C3: cashtag extraction and letter case -/

/-- Counterexample for C3: analyzing `"$DOGE to the moon $doge"` with
known token `doge` does not yield `{doge, DOGE}`, because `analyze_tweet`
lower-cases the whole text before `_extract_coins` runs, so the cashtag
scan never sees the original-case text. -/
theorem cashtag_extraction_not_original_case :
    ((analyzeTweet (some (fun _ => 0)) cryptoLexicon
        { text := some (str "$DOGE to the moon $doge"), retweet_count := 0,
          like_count := 0 } [str "doge"]).coins_mentioned).toFinset
      ≠ {str "doge", str "DOGE"} := by decide

/-- C3 (amended).  Symbol-tag extraction during tweet analysis runs on the
lower-cased text, so every extracted coin either is one of the caller's
keywords (appended in its original spelling) or is a lower-case-fixed
cashtag; analyzing `"$DOGE to the moon $doge"` with known_tokens
`["doge"]` yields exactly the set `{"doge"}`. -/
theorem cashtag_extraction_lowercased :
    (∀ (model : Option (Text → ℚ)) (lexicon : List (Text × ℚ))
        (tweet : Tweet) (keywords : List Text) (c : Text),
        c ∈ (analyzeTweet model lexicon tweet keywords).coins_mentioned →
        c ∈ keywords ∨ lowerText c = c)
    ∧ ((analyzeTweet (some (fun _ => 0)) cryptoLexicon
          { text := some (str "$DOGE to the moon $doge"), retweet_count := 0,
            like_count := 0 } [str "doge"]).coins_mentioned).toFinset
        = {str "doge"} := by
  constructor
  · intro model lexicon tweet keywords c hc
    have hc' : c ∈ extractCoins (lowerText (tweet.text.getD [])) keywords :=
      hc
    simp only [extractCoins] at hc'
    rcases List.mem_append.mp (List.mem_dedup.mp hc') with h | h
    · exact Or.inl (List.mem_of_mem_filter h)
    · refine Or.inr ?_
      have hsub := mem_findCashtagsAux_mem _ _ c h
      exact lowerText_fixed_of_mem
        (fun ch hch => mem_lowerText_fixed (hsub ch hch))
  · decide

/-- Witness for C3's amended statement: the keyword match itself. -/
theorem cashtag_extraction_lowercased_witness :
    str "doge" ∈ [str "doge"] ∨ lowerText (str "doge") = str "doge" :=
  cashtag_extraction_lowercased.1 (some (fun _ => 0)) cryptoLexicon
    { text := some (str "$DOGE to the moon $doge"), retweet_count := 0,
      like_count := 0 }
    [str "doge"] (str "doge") (by decide)
